import Mathlib

/-!
# LSB image steganography: a verified model of `encode.c` / `decode.c`

A shallow embedding of the C sources of the Image-Steganography-using-LSB
repository. Bytes are modelled as natural numbers (the unsigned value of the
C `char`/`unsigned char`; all the C bit operations used here agree with the
arithmetic on the unsigned byte value, and `uint` arithmetic is taken modulo
2^32 where the C computation can wrap). Files and streams are lists of bytes;
a short `fread` yields only the bytes that remain, and local C buffers are
modelled as zero-initialised.
-/

set_option maxHeartbeats 1000000
set_option maxRecDepth 100000

/-- The `Status` enumeration of `types.h`: every core routine reports
`e_success` or `e_failure`. -/
inductive Status where
  | e_success : Status
  | e_failure : Status
deriving DecidableEq

/-- `MAGIC_STRING "#*"` (decode.h).  The byte values of the two signature
characters; `encode.h` is absent from the sources but has to define the same
marker for the container format to be self-consistent (the decoder compares
against this constant). -/
def MAGIC_STRING : List Nat := [35, 42]

/-- The loop body shared by `encode_byte_to_lsb` and `encode_size_to_lsb`
(encode.c:248-280): for `i = 0..n-1`,
`buf[i] = (buf[i] & ~1) | ((v >> i) & 1)`.  On the unsigned byte value this is
`2 * (buf[i] / 2) + (v / 2^i) % 2`; the recursion peels one bit of `v` per
carrier byte.  (The C loop would read past a buffer shorter than `n`; every
call site supplies a buffer of exactly `n` bytes, and the model simply stops
at the end of the list.) -/
def embedBits : Nat → Nat → List Nat → List Nat
  | _, 0, buf => buf
  | _, _ + 1, [] => []
  | v, n + 1, b :: rest => (2 * (b / 2) + v % 2) :: embedBits (v / 2) n rest

/-- The loop body shared by `decode_byte_from_lsb` and `decode_size_from_lsb`
(decode.c:124-179): assemble `n` bits, LSB first, out of the low bits of the
carrier bytes: `value |= (buf[i] & 1) << i`.  Since the bit positions are
disjoint the `|=` accumulation is the sum `Σ (buf[i] % 2) * 2^i`, which the
recursion computes as `buf[0] % 2 + 2 * (rest)`. -/
def extractBits : Nat → List Nat → Nat
  | 0, _ => 0
  | _ + 1, [] => 0
  | n + 1, b :: rest => b % 2 + 2 * extractBits n rest

/-- `encode_byte_to_lsb` (encode.c:248-255): embed the 8 bits of `data` into
the LSBs of 8 image bytes, in place; returns `e_success` always. -/
def encode_byte_to_lsb (data : Nat) (image_buffer : List Nat) : Status × List Nat :=
  (Status.e_success, embedBits data 8 image_buffer)

/-- `encode_size_to_lsb` (encode.c:273-280): embed a 32-bit value into the
LSBs of 32 image bytes; returns `e_success` always. -/
def encode_size_to_lsb (size : Nat) (image_buffer : List Nat) : Status × List Nat :=
  (Status.e_success, embedBits size 32 image_buffer)

/-- `decode_byte_from_lsb` (decode.c:124-138): rebuild one byte from the LSBs
of 8 image bytes (bit `i` of the result is the LSB of `image_buffer[i]`). -/
def decode_byte_from_lsb (image_buffer : List Nat) : Nat :=
  extractBits 8 image_buffer

/-- `decode_size_from_lsb` (decode.c:162-179): rebuild a 32-bit value from the
LSBs of 32 image bytes (the C assembles an `unsigned int` and stores it through
an `int *`; the model keeps the unsigned 32-bit value). -/
def decode_size_from_lsb (buffer : List Nat) : Nat :=
  extractBits 32 buffer

/- ---------------------------------------------------------------------------
Encode pipeline (encode.c)
--------------------------------------------------------------------------- -/

/-- `encode_data_to_image` (encode.c:304-315): for each data byte, read 8 bytes
from the source image, embed the byte's bits into their LSBs with
`encode_byte_to_lsb`, and write the 8 modified bytes to the stego image.
Returns (bytes written to the stego image, unread rest of the source). -/
def encode_data_to_image : List Nat → List Nat → List Nat × List Nat
  | [], src => ([], src)
  | d :: ds, src =>
    let buffer := src.take 8
    let out := (encode_byte_to_lsb d buffer).2
    let r := encode_data_to_image ds (src.drop 8)
    (out ++ r.1, r.2)

/-- `get_image_size_for_bmp` (encode.c:27-39): read the 32-bit little-endian
width and height at header offsets 18 and 22 and return `width * height * 3`;
the multiplication is C `uint` arithmetic, hence the reduction modulo 2^32. -/
def get_image_size_for_bmp (image : List Nat) : Nat :=
  let width := image.getD 18 0 + 256 * image.getD 19 0
      + 65536 * image.getD 20 0 + 16777216 * image.getD 21 0
  let height := image.getD 22 0 + 256 * image.getD 23 0
      + 65536 * image.getD 24 0 + 16777216 * image.getD 25 0
  (width * height * 3) % 4294967296

/-- `get_file_size` (encode.c:167-173): seek to the end, `ftell`, rewind; the
result is returned as `uint`. -/
def get_file_size (f : List Nat) : Nat :=
  f.length % 4294967296

/-- `check_capacity` (encode.c:219-230): the image can hold the secret iff
`image_capacity / 8 >= secret_file_size + 14` (one secret bit per image byte,
a fixed 14-byte metadata overhead); all quantities are C `uint`. -/
def check_capacity (cover secret : List Nat) : Bool :=
  let image_capacity := get_image_size_for_bmp cover
  let secret_file_size := get_file_size secret
  let required_bytes := image_capacity / 8
  if required_bytes < (secret_file_size + 14) % 4294967296 then false else true

/-- The shared shape of `encode_secret_file_extn_size` (encode.c:367-377) and
`encode_secret_file_size` (encode.c:426-436): read 32 bytes from the source
image, embed the 32-bit value with `encode_size_to_lsb`, write the 32 modified
bytes to the stego image.  Returns (bytes written, unread rest of source). -/
def encode_size_field (v : Nat) (src : List Nat) : List Nat × List Nat :=
  ((encode_size_to_lsb v (src.take 32)).2, src.drop 32)

/-- `strstr(secret_fname, ".")` as used at encode.c:610: the suffix of the
filename starting at its first `'.'` (byte 46), or `none` when the filename
contains no dot (C `strstr` returns `NULL` there). -/
def firstDotSuffix (fname : List Nat) : Option (List Nat) :=
  let suff := fname.dropWhile (fun c => c ≠ 46)
  if suff = [] then none else some suff

/-- The sequence of carrier bytes produced by steps 5-9 of `do_encoding`
(encode.c:599-660) from the cover image's pixel bytes: the magic string
(`encode_magic_string`), the extension length (`encode_secret_file_extn_size`
with `strlen(extn)`), the extension bytes (`encode_secret_file_extn`), the
secret file size (`encode_secret_file_size`), the payload
(`encode_secret_file_data`, whose 512-byte chunking processes exactly the
secret's byte sequence), and finally the untouched rest of the pixel data
copied verbatim (`copy_remaining_img_data`). -/
def containerStream (pixels extn secret : List Nat) : List Nat :=
  let r1 := encode_data_to_image MAGIC_STRING pixels
  let r2 := encode_size_field extn.length r1.2
  let r3 := encode_data_to_image extn r2.2
  let r4 := encode_size_field (get_file_size secret) r3.2
  let r5 := encode_data_to_image secret r4.2
  r1.1 ++ r2.1 ++ r3.1 ++ r4.1 ++ r5.1 ++ r5.2

/-- The result of the encode pipeline: `ok stego` with the full stego file on
success, `fail written` with the bytes written to the stego file before the
failing step on failure. -/
inductive EncResult where
  | ok (stego : List Nat) : EncResult
  | fail (written : List Nat) : EncResult
deriving DecidableEq

/-- The stego file bytes carried by an `EncResult` (either branch). -/
def stegoBytes : EncResult → List Nat
  | EncResult.ok s => s
  | EncResult.fail w => w

/-- `do_encoding` (encode.c:547-679), with the three files given by their
names/contents: compute the secret file size and reject an empty secret,
check capacity, copy the 54-byte BMP header verbatim (`copy_bmp_header`),
then embed the container (see `containerStream`).  The extension embedded is
`strstr(secret_fname, ".")`, the suffix from the FIRST dot of the secret's
filename; when the filename has no dot the C code passes `NULL` to `strcpy`
(undefined behaviour) after having already written header and magic bytes,
modelled as a failure with those bytes written. -/
def do_encoding (secret_fname cover secret : List Nat) : EncResult :=
  let size_secret_file := get_file_size secret
  if size_secret_file = 0 then EncResult.fail []
  else if check_capacity cover secret = false then EncResult.fail []
  else
    let header := cover.take 54
    match firstDotSuffix secret_fname with
    | none =>
        EncResult.fail (header ++ (encode_data_to_image MAGIC_STRING (cover.drop 54)).1)
    | some extn => EncResult.ok (header ++ containerStream (cover.drop 54) extn secret)

/- ---------------------------------------------------------------------------
Decode pipeline (decode.c)
--------------------------------------------------------------------------- -/

/-- `decode_data_from_image` (decode.c:203-222): decode `size` bytes, reading
8 stego bytes per data byte; a read of fewer than 8 bytes (`r != 8`) fails.
Returns (`some` decoded bytes or `none`, unread rest of the stream). -/
def decode_data_from_image : Nat → List Nat → Option (List Nat) × List Nat
  | 0, s => (some [], s)
  | n + 1, s =>
    if s.length < 8 then (none, s.drop 8)
    else
      let b := decode_byte_from_lsb (s.take 8)
      match decode_data_from_image n (s.drop 8) with
      | (none, s2) => (none, s2)
      | (some bs, s2) => (some (b :: bs), s2)

/-- `decode_magic_string` (decode.c:242-264): decode `strlen(MAGIC_STRING)`
bytes into a 16-byte stack buffer and `strcmp` against `MAGIC_STRING`.  With
the buffer modelled zero-initialised, the `strcmp` succeeds exactly when the
decoded bytes equal the signature bytes. -/
def decode_magic_string (s : List Nat) : Status × List Nat :=
  match decode_data_from_image MAGIC_STRING.length s with
  | (none, s1) => (Status.e_failure, s1)
  | (some bs, s1) =>
    (if bs = MAGIC_STRING then Status.e_success else Status.e_failure, s1)

/-- `decode_file_extn_size` (decode.c:283-305): read 32 bytes (the return of
`fread` is NOT checked, so a short read silently decodes the partial buffer,
whose unfilled bytes are modelled as 0), decode them with
`decode_size_from_lsb`, and sanity-check `0 < length <= 10` (the decoded
value is stored in an `int`, so values at or above 2^31 are negative and fail
the `length <= 0` test; as naturals those values are above 10, so the
rejection test is `v = 0 ∨ 10 < v`).  Returns (status, decoded length,
rest of stream). -/
def decode_file_extn_size (s : List Nat) : Status × Nat × List Nat :=
  let arr := s.take 32
  let length := decode_size_from_lsb arr
  if length = 0 ∨ 10 < length then (Status.e_failure, length, s.drop 32)
  else (Status.e_success, length, s.drop 32)

/-- `decode_secret_file_extn` (decode.c:325-344): reject
`extn_size <= 0 || extn_size >= MAX_FILE_SUFFIX` (`MAX_FILE_SUFFIX = 5`;
values at or above 2^31 are negative as `int` and rejected, as naturals they
are at least 5, so the test is `v = 0 ∨ 5 ≤ v`), then decode `extn_size`
bytes.  Returns (status, extension bytes, rest of stream). -/
def decode_secret_file_extn (extn_size : Nat) (s : List Nat) :
    Status × List Nat × List Nat :=
  if extn_size = 0 ∨ 5 ≤ extn_size then (Status.e_failure, [], s)
  else
    match decode_data_from_image extn_size s with
    | (none, s1) => (Status.e_failure, [], s1)
    | (some bs, s1) => (Status.e_success, bs, s1)

/-- `decode_secret_file_size` (decode.c:366-386): read 32 bytes (the `fread`
return is NOT checked; missing bytes modelled as 0), decode the 32-bit value,
store it, and return `e_success` unconditionally. -/
def decode_secret_file_size (s : List Nat) : Nat × List Nat :=
  (decode_size_from_lsb (s.take 32), s.drop 32)

/-- `decode_secret_file_data` (decode.c:410-423): loop `size_secret_file`
times; each iteration decodes one byte with `decode_data_from_image` WITHOUT
checking its return value and `fwrite`s the local `ch` to the output — on a
failed decode `ch` keeps its previous value (the uninitialised initial `ch` is
modelled as 0 by the pipeline) and is written anyway.  Returns
(bytes written to the output file, rest of stream); the C function returns
`e_success` unconditionally. -/
def decode_secret_file_data : Nat → Nat → List Nat → List Nat × List Nat
  | 0, _, s => ([], s)
  | n + 1, ch, s =>
    match decode_data_from_image 1 s with
    | (some [b], s1) =>
        let r := decode_secret_file_data n b s1
        (b :: r.1, r.2)
    | (_, s1) =>
        let r := decode_secret_file_data n ch s1
        (ch :: r.1, r.2)

/-- `strtok(base, ".")` as used at decode.c:509: skip leading `'.'`
delimiters, then take the maximal run of non-`'.'` characters (the first
token; empty exactly when the base consists only of dots). -/
def strtok_first (cs : List Nat) : List Nat :=
  (cs.dropWhile (fun c => c = 46)).takeWhile (fun c => c ≠ 46)

/-- The default output stem "decoded" (decode.c:500). -/
def DEFAULT_STEM : List Nat := [100, 101, 99, 111, 100, 101, 100]

/-- Output-filename resolution of `do_decoding` (decode.c:489-522): take the
user-supplied name (default stem when absent or empty), copy at most 255
bytes of it (`strncpy(base, ..., sizeof(base) - 1)`), strip with
`strtok(base, ".")` falling back to the default stem when the token is empty
(`NULL` or `""`), then `strcat` the decoded extension (which stops at the
extension's first NUL byte). -/
def build_final_name (output_fname : Option (List Nat)) (extn : List Nat) :
    List Nat :=
  let base :=
    match output_fname with
    | none => DEFAULT_STEM
    | some u =>
      if u = [] then DEFAULT_STEM
      else
        let b := u.take 255
        let t := strtok_first b
        if t = [] then DEFAULT_STEM else t
  base ++ extn.takeWhile (fun c => c ≠ 0)

/-- The stage of `do_decoding` at which the pipeline jumped to
`FAILURE_CLOSE`.  The secret-file-size and secret-file-data steps return
`e_success` unconditionally, so only these three failure stages are
reachable. -/
inductive DecodeStage where
  | stageSig : DecodeStage
  | stageExtnSize : DecodeStage
  | stageExtn : DecodeStage
deriving DecidableEq

/-- Observable outcome of one run of `do_decoding`: the returned status, the
failing stage (if any), the decoded extension, the output file
(`none` when the output file was never `fopen`ed), the bytes written to it,
and the unread rest of the stego file. -/
structure DecodeResult where
  status : Status
  stage : Option DecodeStage
  extn : List Nat
  outName : Option (List Nat)
  outBytes : List Nat
  remaining : List Nat
deriving DecidableEq

/-- `do_decoding` (decode.c:446-575): skip the 54-byte BMP header
(`open_files_decode`), verify the magic string, decode the extension length
and the extension, build the output filename and open the output file
(`fopen` with mode "wb" is modelled as always succeeding), decode the payload
length (`decode_secret_file_size`, always `e_success`), and decode the
payload (`decode_secret_file_data`, always `e_success`; its loop bound
`size_secret_file` is a `long` holding the decoded 32-bit value cast through
`int`, so values at or above 2^31 are negative and the loop runs 0 times). -/
def do_decoding (output_fname : Option (List Nat)) (file : List Nat) :
    DecodeResult :=
  let s0 := file.drop 54
  match decode_magic_string s0 with
  | (Status.e_failure, s1) =>
      DecodeResult.mk Status.e_failure (some DecodeStage.stageSig) [] none [] s1
  | (Status.e_success, s1) =>
    match decode_file_extn_size s1 with
    | (Status.e_failure, _, s2) =>
        DecodeResult.mk Status.e_failure (some DecodeStage.stageExtnSize) [] none [] s2
    | (Status.e_success, extn_size, s2) =>
      match decode_secret_file_extn extn_size s2 with
      | (Status.e_failure, _, s3) =>
          DecodeResult.mk Status.e_failure (some DecodeStage.stageExtn) [] none [] s3
      | (Status.e_success, extn, s3) =>
        let final_name := build_final_name output_fname extn
        let r4 := decode_secret_file_size s3
        let n := if r4.1 < 2147483648 then r4.1 else 0
        let r5 := decode_secret_file_data n 0 r4.2
        DecodeResult.mk Status.e_success none extn (some final_name) r5.1 r5.2

/- ---------------------------------------------------------------------------
Claim-side definitions (written from the specification's words, for the
claims that compare the code against a differently-worded specification)
--------------------------------------------------------------------------- -/

/-- The overhead constant as the capacity claim words it: the byte count of
the signature plus two 32-bit length fields. -/
def claim_fixed_overhead : Nat := MAGIC_STRING.length + 4 + 4

/-- The extension as the extension claim words it: the substring of the
filename from the LAST dot onward, including the leading dot (meaningful for
filenames that contain a dot). -/
def claim_last_dot_suffix (fname : List Nat) : List Nat :=
  46 :: (fname.reverse.takeWhile (fun c => c ≠ 46)).reverse

/-- The output filename as the filename claim words it: the part of the base
name before its first period (the base as-is when it has no period, the
default stem when no base was given or the base is empty or only a period),
with the decoded extension appended. -/
def claim_final_name (output_fname : Option (List Nat)) (extn : List Nat) :
    List Nat :=
  let base :=
    match output_fname with
    | none => DEFAULT_STEM
    | some u =>
      if u = [] ∨ u = [46] then DEFAULT_STEM
      else u.takeWhile (fun c => c ≠ 46)
  base ++ extn

/-- First period-delimited token of a byte string, computed recursively:
skip leading periods, then take the run of non-period bytes.  Used to state
the amended filename-resolution claim independently of `strtok_first`. -/
def first_token : List Nat → List Nat
  | [] => []
  | c :: cs => if c = 46 then first_token cs else c :: cs.takeWhile (fun d => d ≠ 46)

/-- The amended filename resolution: the stem is the first maximal run of
non-period characters of the base name truncated to 255 bytes (leading
periods are skipped); the default stem is used when no base was given, the
base is empty, or it contains no non-period character; the decoded extension
is appended up to its first NUL byte. -/
def amended_final_name (output_fname : Option (List Nat)) (extn : List Nat) :
    List Nat :=
  let stem :=
    match output_fname with
    | none => DEFAULT_STEM
    | some u =>
      if u = [] then DEFAULT_STEM
      else
        let t := first_token (u.take 255)
        if t = [] then DEFAULT_STEM else t
  stem ++ extn.takeWhile (fun c => c ≠ 0)

/- ---------------------------------------------------------------------------
Concrete inputs used by witnesses and counterexamples
--------------------------------------------------------------------------- -/

/-- A well-formed cover image: 54-byte BMP header declaring width 8 and
height 5 (little endian at offsets 18 and 22), followed by exactly
8 * 5 * 3 = 120 pixel bytes, all zero. -/
def coverA : List Nat :=
  List.replicate 18 0 ++ [8, 0, 0, 0, 5, 0, 0, 0] ++ List.replicate 28 0
    ++ List.replicate 120 0

/-- A second well-formed cover image: width 8, height 6, 144 zero pixel
bytes. -/
def coverB : List Nat :=
  List.replicate 18 0 ++ [8, 0, 0, 0, 6, 0, 0, 0] ++ List.replicate 28 0
    ++ List.replicate 144 0

/-- A BMP header declaring width 4 and height 8 (capacity 96 pixel bytes);
only the header matters to `check_capacity`. -/
def cover96 : List Nat :=
  List.replicate 18 0 ++ [4, 0, 0, 0, 8, 0, 0, 0] ++ List.replicate 28 0

/-- The secret filename "s.txt". -/
def fnameTxt : List Nat := [115, 46, 116, 120, 116]

/-- The secret filename "a.b.c": two dots, so the first-dot and last-dot
suffixes differ. -/
def fnameABC : List Nat := [97, 46, 98, 46, 99]

/-- The stego image produced by encoding the 1-byte secret `[7]` (filename
"s.txt") into `coverA`, truncated to its first 166 bytes: the container's
final 8 carrier bytes — the whole encoded payload — are missing. -/
def truncatedStego : List Nat :=
  (stegoBytes (do_encoding fnameTxt coverA [7])).take 166
/- ---------------------------------------------------------------------------
Bit-codec lemmas
--------------------------------------------------------------------------- -/

theorem embedBits_length (n : Nat) :
    ∀ (v : Nat) (buf : List Nat), (embedBits v n buf).length = buf.length := by
  induction n with
  | zero => intro v buf; rfl
  | succ n ih =>
    intro v buf
    cases buf with
    | nil => rfl
    | cons b rest => simp [embedBits, ih]

theorem extractBits_embedBits (n : Nat) :
    ∀ (v : Nat) (buf : List Nat), n ≤ buf.length →
      extractBits n (embedBits v n buf) = v % 2 ^ n := by
  induction n with
  | zero => intro v buf _; simp [extractBits, embedBits]; omega
  | succ n ih =>
    intro v buf h
    cases buf with
    | nil => simp at h
    | cons b rest =>
      have hr : n ≤ rest.length := by simp at h; omega
      have h1 : (2 * (b / 2) + v % 2) % 2 = v % 2 := by omega
      simp only [embedBits, extractBits, h1, ih (v / 2) rest hr]
      rw [pow_succ', Nat.mod_mul]

theorem embedBits_getD_div2 (n : Nat) :
    ∀ (v : Nat) (buf : List Nat) (i : Nat),
      (embedBits v n buf).getD i 0 / 2 = buf.getD i 0 / 2 := by
  induction n with
  | zero => intro v buf i; rfl
  | succ n ih =>
    intro v buf i
    cases buf with
    | nil => rfl
    | cons b rest =>
      cases i with
      | zero => simp [embedBits]; omega
      | succ i =>
        simp only [embedBits, List.getD_cons_succ]
        exact ih (v / 2) rest i

theorem embedBits_getD_ge (n : Nat) :
    ∀ (v : Nat) (buf : List Nat) (i : Nat), n ≤ i →
      (embedBits v n buf).getD i 0 = buf.getD i 0 := by
  induction n with
  | zero => intro v buf i _; rfl
  | succ n ih =>
    intro v buf i h
    cases buf with
    | nil => rfl
    | cons b rest =>
      cases i with
      | zero => omega
      | succ i =>
        simp only [embedBits, List.getD_cons_succ]
        exact ih (v / 2) rest i (by omega)

theorem embedBits_getD_mod2 (n : Nat) :
    ∀ (v : Nat) (buf : List Nat) (i : Nat), i < n → i < buf.length →
      (embedBits v n buf).getD i 0 % 2 = v / 2 ^ i % 2 := by
  induction n with
  | zero => intro v buf i h _; omega
  | succ n ih =>
    intro v buf i h hb
    cases buf with
    | nil => simp at hb
    | cons b rest =>
      cases i with
      | zero => simp [embedBits]; omega
      | succ i =>
        have := ih (v / 2) rest i (by omega) (by simp at hb; omega)
        simp only [embedBits, List.getD_cons_succ, this]
        rw [Nat.div_div_eq_div_mul, ← pow_succ']


/- ---------------------------------------------------------------------------
Stream-level lemmas
--------------------------------------------------------------------------- -/

theorem encode_data_snd (data : List Nat) :
    ∀ src : List Nat,
      (encode_data_to_image data src).2 = src.drop (8 * data.length) := by
  induction data with
  | nil => intro src; simp [encode_data_to_image]
  | cons d ds ih =>
    intro src
    simp only [encode_data_to_image, ih, List.drop_drop, List.length_cons]
    congr 1
    omega

theorem encode_data_fst_length (data : List Nat) :
    ∀ src : List Nat, 8 * data.length ≤ src.length →
      (encode_data_to_image data src).1.length = 8 * data.length := by
  induction data with
  | nil => intro src _; simp [encode_data_to_image]
  | cons d ds ih =>
    intro src h
    have h8 : 8 ≤ src.length := by simp at h; omega
    have hds : 8 * ds.length ≤ (src.drop 8).length := by
      simp [List.length_drop]; simp at h; omega
    simp only [encode_data_to_image, List.length_append, encode_byte_to_lsb,
      embedBits_length, List.length_take, ih (src.drop 8) hds, List.length_cons]
    omega

theorem decode_data_of_encode (data : List Nat) :
    ∀ (src t : List Nat), 8 * data.length ≤ src.length →
      (∀ b ∈ data, b < 256) →
      decode_data_from_image data.length
        ((encode_data_to_image data src).1 ++ t) = (some data, t) := by
  induction data with
  | nil => intro src t _ _; simp [encode_data_to_image, decode_data_from_image]
  | cons d ds ih =>
    intro src t h hb
    have h8 : 8 ≤ src.length := by simp at h; omega
    have hbuf : (src.take 8).length = 8 := by simp [List.length_take]; omega
    have hout : ((encode_byte_to_lsb d (src.take 8)).2).length = 8 := by
      simp [encode_byte_to_lsb, embedBits_length, hbuf]
    have hds : 8 * ds.length ≤ (src.drop 8).length := by
      simp [List.length_drop]; simp at h; omega
    have hrec := ih (src.drop 8) t hds (fun b hbm => hb b (List.mem_cons_of_mem _ hbm))
    have hd : d < 256 := hb d (List.mem_cons_self d ds)
    -- the stream starts with the 8 bytes carrying d
    have hstream :
        (encode_data_to_image (d :: ds) src).1 ++ t
          = (encode_byte_to_lsb d (src.take 8)).2
              ++ ((encode_data_to_image ds (src.drop 8)).1 ++ t) := by
      simp [encode_data_to_image, List.append_assoc]
    rw [List.length_cons, hstream]
    have hlen : ¬ ((encode_byte_to_lsb d (src.take 8)).2
        ++ ((encode_data_to_image ds (src.drop 8)).1 ++ t)).length < 8 := by
      rw [List.length_append, hout]; omega
    have htake :
        ((encode_byte_to_lsb d (src.take 8)).2
          ++ ((encode_data_to_image ds (src.drop 8)).1 ++ t)).take 8
          = (encode_byte_to_lsb d (src.take 8)).2 :=
      List.take_left' hout
    have hdrop :
        ((encode_byte_to_lsb d (src.take 8)).2
          ++ ((encode_data_to_image ds (src.drop 8)).1 ++ t)).drop 8
          = (encode_data_to_image ds (src.drop 8)).1 ++ t :=
      List.drop_left' hout
    have hbyte : decode_byte_from_lsb ((encode_byte_to_lsb d (src.take 8)).2) = d := by
      have := extractBits_embedBits 8 d (src.take 8) (by omega)
      simp [decode_byte_from_lsb, encode_byte_to_lsb, this, Nat.mod_eq_of_lt hd]
    simp [decode_data_from_image, hlen, htake, hdrop, hbyte, hrec]
    omega

theorem decode_loop_of_encode (data : List Nat) :
    ∀ (src t : List Nat) (ch : Nat), 8 * data.length ≤ src.length →
      (∀ b ∈ data, b < 256) →
      decode_secret_file_data data.length ch
        ((encode_data_to_image data src).1 ++ t) = (data, t) := by
  induction data with
  | nil => intro src t ch _ _; simp [encode_data_to_image, decode_secret_file_data]
  | cons d ds ih =>
    intro src t ch h hb
    have h8 : 8 ≤ src.length := by simp at h; omega
    have hbuf : (src.take 8).length = 8 := by simp [List.length_take]; omega
    have hout : ((encode_byte_to_lsb d (src.take 8)).2).length = 8 := by
      simp [encode_byte_to_lsb, embedBits_length, hbuf]
    have hds : 8 * ds.length ≤ (src.drop 8).length := by
      simp [List.length_drop]; simp at h; omega
    have hrec := ih (src.drop 8) t d hds (fun b hbm => hb b (List.mem_cons_of_mem _ hbm))
    have hd : d < 256 := hb d (List.mem_cons_self d ds)
    have hstream :
        (encode_data_to_image (d :: ds) src).1 ++ t
          = (encode_byte_to_lsb d (src.take 8)).2
              ++ ((encode_data_to_image ds (src.drop 8)).1 ++ t) := by
      simp [encode_data_to_image, List.append_assoc]
    have hlen : ¬ ((encode_byte_to_lsb d (src.take 8)).2
        ++ ((encode_data_to_image ds (src.drop 8)).1 ++ t)).length < 8 := by
      rw [List.length_append, hout]; omega
    have htake :
        ((encode_byte_to_lsb d (src.take 8)).2
          ++ ((encode_data_to_image ds (src.drop 8)).1 ++ t)).take 8
          = (encode_byte_to_lsb d (src.take 8)).2 :=
      List.take_left' hout
    have hdrop :
        ((encode_byte_to_lsb d (src.take 8)).2
          ++ ((encode_data_to_image ds (src.drop 8)).1 ++ t)).drop 8
          = (encode_data_to_image ds (src.drop 8)).1 ++ t :=
      List.drop_left' hout
    have hbyte : decode_byte_from_lsb ((encode_byte_to_lsb d (src.take 8)).2) = d := by
      have := extractBits_embedBits 8 d (src.take 8) (by omega)
      simp [decode_byte_from_lsb, encode_byte_to_lsb, this, Nat.mod_eq_of_lt hd]
    have hone :
        decode_data_from_image 1
          ((encode_data_to_image (d :: ds) src).1 ++ t)
          = (some [d], (encode_data_to_image ds (src.drop 8)).1 ++ t) := by
      rw [hstream]
      simp [decode_data_from_image, hlen, htake, hdrop, hbyte]
      omega
    rw [List.length_cons]
    simp only [decode_secret_file_data, hone, hrec]

theorem decode_data_some_rest (n : Nat) :
    ∀ (s : List Nat) (bs : List Nat) (s2 : List Nat),
      decode_data_from_image n s = (some bs, s2) → s2 = s.drop (8 * n) := by
  induction n with
  | zero =>
    intro s bs s2 h
    simp [decode_data_from_image] at h
    simp [h.2]
  | succ n ih =>
    intro s bs s2 h
    by_cases hs : s.length < 8
    · simp [decode_data_from_image, hs] at h
    · rcases hdec : decode_data_from_image n (s.drop 8) with ⟨o, s3⟩
      cases o with
      | none => simp [decode_data_from_image, hs, hdec] at h
      | some bs' =>
        simp [decode_data_from_image, hs, hdec] at h
        have := ih (s.drop 8) bs' s3 hdec
        rw [← h.2, this, List.drop_drop]
        congr 1
        omega

theorem decode_data_short (n : Nat) :
    ∀ s : List Nat, s.length < 8 * n →
      (decode_data_from_image n s).1 = none := by
  induction n with
  | zero => intro s h; omega
  | succ n ih =>
    intro s h
    by_cases hs : s.length < 8
    · simp [decode_data_from_image, hs]
    · have hlt : (s.drop 8).length < 8 * n := by
        simp [List.length_drop]; omega
      rcases hdec : decode_data_from_image n (s.drop 8) with ⟨o, s3⟩
      have := ih (s.drop 8) hlt
      rw [hdec] at this
      cases o with
      | none => simp [decode_data_from_image, hs, hdec]
      | some bs' => simp at this

theorem decode_magic_of_encode (src t : List Nat) (h : 16 ≤ src.length) :
    decode_magic_string ((encode_data_to_image MAGIC_STRING src).1 ++ t)
      = (Status.e_success, t) := by
  have hd := decode_data_of_encode MAGIC_STRING src t
    (by simp [MAGIC_STRING]; omega) (by decide)
  simp [decode_magic_string, hd]

theorem decode_extn_size_of_field (v : Nat) (s t : List Nat)
    (hs : 32 ≤ s.length) (hv : v < 4294967296) :
    decode_file_extn_size ((encode_size_field v s).1 ++ t)
      = (if v = 0 ∨ 10 < v then Status.e_failure else Status.e_success, v, t) := by
  have hbuf : (s.take 32).length = 32 := by simp [List.length_take]; omega
  have hw : ((encode_size_field v s).1).length = 32 := by
    simp [encode_size_field, encode_size_to_lsb, embedBits_length, hbuf]
  have htake : ((encode_size_field v s).1 ++ t).take 32 = (encode_size_field v s).1 :=
    List.take_left' hw
  have hdrop : ((encode_size_field v s).1 ++ t).drop 32 = t :=
    List.drop_left' hw
  have hval : decode_size_from_lsb ((encode_size_field v s).1) = v := by
    have := extractBits_embedBits 32 v (s.take 32) (by omega)
    simp [decode_size_from_lsb, encode_size_field, encode_size_to_lsb, this,
      Nat.mod_eq_of_lt hv]
  by_cases h10 : v = 0 ∨ 10 < v <;> simp [decode_file_extn_size, htake, hdrop, hval, h10]

theorem decode_size_of_field (v : Nat) (s t : List Nat)
    (hs : 32 ≤ s.length) (hv : v < 4294967296) :
    decode_secret_file_size ((encode_size_field v s).1 ++ t) = (v, t) := by
  have hbuf : (s.take 32).length = 32 := by simp [List.length_take]; omega
  have hw : ((encode_size_field v s).1).length = 32 := by
    simp [encode_size_field, encode_size_to_lsb, embedBits_length, hbuf]
  have htake : ((encode_size_field v s).1 ++ t).take 32 = (encode_size_field v s).1 :=
    List.take_left' hw
  have hdrop : ((encode_size_field v s).1 ++ t).drop 32 = t :=
    List.drop_left' hw
  have hval : decode_size_from_lsb ((encode_size_field v s).1) = v := by
    have := extractBits_embedBits 32 v (s.take 32) (by omega)
    simp [decode_size_from_lsb, encode_size_field, encode_size_to_lsb, this,
      Nat.mod_eq_of_lt hv]
  simp [decode_secret_file_size, htake, hdrop, hval]

theorem firstDotSuffix_ne_nil (fname extn : List Nat)
    (h : firstDotSuffix fname = some extn) : extn ≠ [] := by
  simp only [firstDotSuffix] at h
  by_cases hs : fname.dropWhile (fun c => c ≠ 46) = []
  · rw [if_pos hs] at h
    exact absurd h (by simp)
  · rw [if_neg hs] at h
    have h' : fname.dropWhile (fun c => c ≠ 46) = extn := Option.some.inj h
    rw [← h']
    exact hs

theorem decode_extn_of_encode (extn : List Nat) (s t : List Nat)
    (h : 8 * extn.length ≤ s.length) (hb : ∀ c ∈ extn, c < 256)
    (h1 : extn.length ≠ 0) (h4 : extn.length ≤ 4) :
    decode_secret_file_extn extn.length ((encode_data_to_image extn s).1 ++ t)
      = (Status.e_success, extn, t) := by
  have hno : ¬ (extn.length = 0 ∨ 5 ≤ extn.length) := by omega
  simp [decode_secret_file_extn, if_neg hno, decode_data_of_encode extn s t h hb]
  refine ⟨?_, by omega⟩
  intro hnil
  rw [hnil] at h1
  exact h1 rfl

theorem do_encoding_ok (fname cover secret extn : List Nat)
    (h1 : firstDotSuffix fname = some extn)
    (h5 : secret ≠ [])
    (hS14 : secret.length + 14 < 4294967296)
    (hcap : secret.length + 14 ≤ get_image_size_for_bmp cover / 8) :
    do_encoding fname cover secret
      = EncResult.ok (cover.take 54 ++ containerStream (cover.drop 54) extn secret) := by
  have hsz : get_file_size secret = secret.length :=
    Nat.mod_eq_of_lt (by omega)
  have hnz : ¬ (get_file_size secret = 0) := by
    rw [hsz]
    cases secret with
    | nil => exact absurd rfl h5
    | cons b bs => simp
  have hcc : check_capacity cover secret = true := by
    have hlt : ¬ (get_image_size_for_bmp cover / 8
        < (get_file_size secret + 14) % 4294967296) := by
      rw [hsz, Nat.mod_eq_of_lt hS14]
      omega
    simp [check_capacity, hlt]
  simp [do_encoding, hnz, hcc, h1]

theorem do_decoding_of_encoded (oname : Option (List Nat))
    (header pixels extn secret : List Nat)
    (hh : header.length = 54)
    (he1 : extn ≠ []) (he4 : extn.length ≤ 4)
    (hbe : ∀ c ∈ extn, c < 256)
    (hs1 : secret ≠ []) (hS : secret.length < 2147483648)
    (hbs : ∀ b ∈ secret, b < 256)
    (hlen : 80 + 8 * extn.length + 8 * secret.length ≤ pixels.length) :
    do_decoding oname (header ++ containerStream pixels extn secret)
      = DecodeResult.mk Status.e_success none extn
          (some (build_final_name oname extn)) secret
          (pixels.drop (80 + 8 * extn.length + 8 * secret.length)) := by
  have he0 : 0 < extn.length := List.length_pos.mpr he1
  have hs0 : 0 < secret.length := List.length_pos.mpr hs1
  have hdrop54 : (header ++ containerStream pixels extn secret).drop 54
      = containerStream pixels extn secret := List.drop_left' hh
  -- the unread source suffix after each encoding step
  have hr1snd : (encode_data_to_image MAGIC_STRING pixels).2 = pixels.drop 16 := by
    have := encode_data_snd MAGIC_STRING pixels
    simpa [MAGIC_STRING] using this
  have hr2snd :
      (encode_size_field extn.length (encode_data_to_image MAGIC_STRING pixels).2).2
        = pixels.drop 48 := by
    show ((encode_data_to_image MAGIC_STRING pixels).2).drop 32 = _
    rw [hr1snd, List.drop_drop]
  have hr3snd :
      (encode_data_to_image extn
        (encode_size_field extn.length (encode_data_to_image MAGIC_STRING pixels).2).2).2
        = pixels.drop (48 + 8 * extn.length) := by
    rw [encode_data_snd, hr2snd, List.drop_drop]
  have hr4snd :
      (encode_size_field (get_file_size secret)
        (encode_data_to_image extn
          (encode_size_field extn.length
            (encode_data_to_image MAGIC_STRING pixels).2).2).2).2
        = pixels.drop (80 + 8 * extn.length) := by
    show ((encode_data_to_image extn
      (encode_size_field extn.length
        (encode_data_to_image MAGIC_STRING pixels).2).2).2).drop 32 = _
    rw [hr3snd, List.drop_drop, Nat.add_right_comm 48 (8 * extn.length) 32]
  have hr5snd :
      (encode_data_to_image secret
        (encode_size_field (get_file_size secret)
          (encode_data_to_image extn
            (encode_size_field extn.length
              (encode_data_to_image MAGIC_STRING pixels).2).2).2).2).2
        = pixels.drop (80 + 8 * extn.length + 8 * secret.length) := by
    rw [encode_data_snd, hr4snd, List.drop_drop]
  have hszs : get_file_size secret = secret.length :=
    Nat.mod_eq_of_lt (by omega)
  have h16 : 16 ≤ pixels.length := by omega
  have hlen2 : 32 ≤ ((encode_data_to_image MAGIC_STRING pixels).2).length := by
    rw [hr1snd, List.length_drop]
    omega
  have hlen3 : 8 * extn.length
      ≤ ((encode_size_field extn.length
            (encode_data_to_image MAGIC_STRING pixels).2).2).length := by
    rw [hr2snd, List.length_drop]
    omega
  have hlen4 : 32 ≤ ((encode_data_to_image extn
      (encode_size_field extn.length
        (encode_data_to_image MAGIC_STRING pixels).2).2).2).length := by
    rw [hr3snd, List.length_drop]
    omega
  have hlen5 : 8 * secret.length
      ≤ ((encode_size_field (get_file_size secret)
            (encode_data_to_image extn
              (encode_size_field extn.length
                (encode_data_to_image MAGIC_STRING pixels).2).2).2).2).length := by
    rw [hr4snd, List.length_drop]
    omega
  have hno10 : ¬ (extn.length = 0 ∨ 10 < extn.length) := by omega
  simp only [do_decoding, hdrop54]
  simp only [containerStream, List.append_assoc]
  rw [decode_magic_of_encode pixels _ h16]
  dsimp only
  rw [decode_extn_size_of_field extn.length _ _ hlen2 (by omega), if_neg hno10]
  dsimp only
  rw [decode_extn_of_encode extn _ _ hlen3 hbe (by omega) he4]
  dsimp only
  rw [decode_size_of_field (get_file_size secret) _ _ hlen4 (by omega)]
  dsimp only
  rw [hszs] at hlen5 hr5snd
  rw [hszs, if_pos hS]
  rw [decode_loop_of_encode secret _ _ 0 hlen5 hbs]
  simp [hr5snd]

theorem decode_loop_length (n : Nat) :
    ∀ (ch : Nat) (s : List Nat),
      ((decode_secret_file_data n ch s).1).length = n := by
  induction n with
  | zero => intro ch s; rfl
  | succ n ih =>
    intro ch s
    rcases hdec : decode_data_from_image 1 s with ⟨o, s1⟩
    cases o with
    | none => simp [decode_secret_file_data, hdec, ih]
    | some bs =>
      match bs with
      | [] => simp [decode_secret_file_data, hdec, ih]
      | [b] => simp [decode_secret_file_data, hdec, ih]
      | b :: c :: rest => simp [decode_secret_file_data, hdec, ih]

theorem encode_size_field_fst_length (v : Nat) (s : List Nat) (h : 32 ≤ s.length) :
    ((encode_size_field v s).1).length = 32 := by
  show ((encode_size_to_lsb v (s.take 32)).2).length = 32
  simp [encode_size_to_lsb, embedBits_length, List.length_take]
  omega

theorem containerStream_drop (pixels extn secret : List Nat)
    (hlen : 80 + 8 * extn.length + 8 * secret.length ≤ pixels.length) :
    (containerStream pixels extn secret).drop
        (80 + 8 * extn.length + 8 * secret.length)
      = pixels.drop (80 + 8 * extn.length + 8 * secret.length) := by
  have hr1snd : (encode_data_to_image MAGIC_STRING pixels).2 = pixels.drop 16 := by
    have := encode_data_snd MAGIC_STRING pixels
    simpa [MAGIC_STRING] using this
  have hr2snd :
      (encode_size_field extn.length (encode_data_to_image MAGIC_STRING pixels).2).2
        = pixels.drop 48 := by
    show ((encode_data_to_image MAGIC_STRING pixels).2).drop 32 = _
    rw [hr1snd, List.drop_drop]
  have hr3snd :
      (encode_data_to_image extn
        (encode_size_field extn.length (encode_data_to_image MAGIC_STRING pixels).2).2).2
        = pixels.drop (48 + 8 * extn.length) := by
    rw [encode_data_snd, hr2snd, List.drop_drop]
  have hr4snd :
      (encode_size_field (get_file_size secret)
        (encode_data_to_image extn
          (encode_size_field extn.length
            (encode_data_to_image MAGIC_STRING pixels).2).2).2).2
        = pixels.drop (80 + 8 * extn.length) := by
    show ((encode_data_to_image extn
      (encode_size_field extn.length
        (encode_data_to_image MAGIC_STRING pixels).2).2).2).drop 32 = _
    rw [hr3snd, List.drop_drop, Nat.add_right_comm 48 (8 * extn.length) 32]
  have hr5snd :
      (encode_data_to_image secret
        (encode_size_field (get_file_size secret)
          (encode_data_to_image extn
            (encode_size_field extn.length
              (encode_data_to_image MAGIC_STRING pixels).2).2).2).2).2
        = pixels.drop (80 + 8 * extn.length + 8 * secret.length) := by
    rw [encode_data_snd, hr4snd, List.drop_drop]
  have hA1 : ((encode_data_to_image MAGIC_STRING pixels).1).length = 16 := by
    have := encode_data_fst_length MAGIC_STRING pixels
      (by simp [MAGIC_STRING]; omega)
    simpa [MAGIC_STRING] using this
  have hA2 : ((encode_size_field extn.length
      (encode_data_to_image MAGIC_STRING pixels).2).1).length = 32 := by
    apply encode_size_field_fst_length
    rw [hr1snd, List.length_drop]
    omega
  have hA3 : ((encode_data_to_image extn
      (encode_size_field extn.length
        (encode_data_to_image MAGIC_STRING pixels).2).2).1).length
      = 8 * extn.length := by
    apply encode_data_fst_length
    rw [hr2snd, List.length_drop]
    omega
  have hA4 : ((encode_size_field (get_file_size secret)
      (encode_data_to_image extn
        (encode_size_field extn.length
          (encode_data_to_image MAGIC_STRING pixels).2).2).2).1).length = 32 := by
    apply encode_size_field_fst_length
    rw [hr3snd, List.length_drop]
    omega
  have hA5 : ((encode_data_to_image secret
      (encode_size_field (get_file_size secret)
        (encode_data_to_image extn
          (encode_size_field extn.length
            (encode_data_to_image MAGIC_STRING pixels).2).2).2).2).1).length
      = 8 * secret.length := by
    apply encode_data_fst_length
    rw [hr4snd, List.length_drop]
    omega
  have hW : containerStream pixels extn secret
      = ((encode_data_to_image MAGIC_STRING pixels).1
          ++ ((encode_size_field extn.length
                (encode_data_to_image MAGIC_STRING pixels).2).1
          ++ ((encode_data_to_image extn
                (encode_size_field extn.length
                  (encode_data_to_image MAGIC_STRING pixels).2).2).1
          ++ ((encode_size_field (get_file_size secret)
                (encode_data_to_image extn
                  (encode_size_field extn.length
                    (encode_data_to_image MAGIC_STRING pixels).2).2).2).1
          ++ (encode_data_to_image secret
                (encode_size_field (get_file_size secret)
                  (encode_data_to_image extn
                    (encode_size_field extn.length
                      (encode_data_to_image MAGIC_STRING pixels).2).2).2).2).1))))
        ++ (encode_data_to_image secret
              (encode_size_field (get_file_size secret)
                (encode_data_to_image extn
                  (encode_size_field extn.length
                    (encode_data_to_image MAGIC_STRING pixels).2).2).2).2).2 := by
    simp [containerStream, List.append_assoc]
  rw [hW, List.drop_left' (by
    simp only [List.length_append, hA1, hA2, hA3, hA4, hA5]
    omega), hr5snd]

theorem dropWhile_append_dot (pre post : List Nat) (h : 46 ∉ pre) :
    (pre ++ 46 :: post).dropWhile (fun c => c ≠ 46) = 46 :: post := by
  induction pre with
  | nil =>
    rw [List.nil_append, List.dropWhile_cons, if_neg (by simp)]
  | cons a as ih =>
    simp only [List.mem_cons] at h
    have ha : a ≠ 46 := fun e => h (Or.inl e.symm)
    have has : 46 ∉ as := fun m => h (Or.inr m)
    rw [List.cons_append, List.dropWhile_cons, if_pos (decide_eq_true ha)]
    exact ih has

theorem first_token_eq_strtok (cs : List Nat) :
    first_token cs = strtok_first cs := by
  induction cs with
  | nil => rfl
  | cons c cs ih =>
    by_cases hc : c = 46
    · simp [first_token, strtok_first, List.dropWhile, hc] at ih ⊢
      exact ih
    · simp [first_token, strtok_first, List.dropWhile, hc]

/- ---------------------------------------------------------------------------
Claim theorems
--------------------------------------------------------------------------- -/

/-- C1: for every secret byte sequence with an extension that fits the
decoder's extension buffer (at most 4 bytes, `MAX_FILE_SUFFIX - 1`) and every
cover image whose usable capacity admits the secret plus the 14-byte
overhead, running `do_encoding` and then `do_decoding` on the resulting stego
image reproduces the original secret bytes exactly and the same extension
string. -/
theorem C1_encode_decode_roundtrip
    (fname cover secret extn : List Nat) (oname : Option (List Nat))
    (hdot : firstDotSuffix fname = some extn)
    (hfit : extn.length ≤ 4)
    (hbe : ∀ c ∈ extn, c < 256)
    (hbs : ∀ b ∈ secret, b < 256)
    (hne : secret ≠ [])
    (hcap : secret.length + 14 ≤ get_image_size_for_bmp cover / 8)
    (hpix : get_image_size_for_bmp cover ≤ (cover.drop 54).length) :
    do_encoding fname cover secret
        = EncResult.ok (stegoBytes (do_encoding fname cover secret))
      ∧ (do_decoding oname (stegoBytes (do_encoding fname cover secret))).status
          = Status.e_success
      ∧ (do_decoding oname (stegoBytes (do_encoding fname cover secret))).outBytes
          = secret
      ∧ (do_decoding oname (stegoBytes (do_encoding fname cover secret))).extn
          = extn := by
  have hcaplt : get_image_size_for_bmp cover < 4294967296 := by
    unfold get_image_size_for_bmp
    exact Nat.mod_lt _ (by norm_num)
  have hS31 : secret.length < 2147483648 := by omega
  have hS14 : secret.length + 14 < 4294967296 := by omega
  have hmul : 8 * (secret.length + 14) ≤ get_image_size_for_bmp cover := by
    have := (Nat.le_div_iff_mul_le (by norm_num : 0 < 8)).mp hcap
    omega
  have hplen : 80 + 8 * extn.length + 8 * secret.length
      ≤ (cover.drop 54).length := by omega
  have h54 : 54 ≤ cover.length := by
    have := List.length_drop 54 cover
    omega
  have hlen54 : (cover.take 54).length = 54 := by
    rw [List.length_take]
    omega
  have henc := do_encoding_ok fname cover secret extn hdot hne hS14 hcap
  have he1 : extn ≠ [] := firstDotSuffix_ne_nil fname extn hdot
  have hdec := do_decoding_of_encoded oname (cover.take 54) (cover.drop 54)
    extn secret hlen54 he1 hfit hbe hne hS31 hbs hplen
  refine ⟨by rw [henc]; rfl, ?_, ?_, ?_⟩
  all_goals rw [henc]
  all_goals show _ = _
  all_goals simp [stegoBytes, hdec]

/-- C2: packing a byte `b < 256` into any carrier of at least 8 bytes and
unpacking it yields exactly `b`; packing a 32-bit value `v` into any carrier
of at least 32 bytes and unpacking it yields exactly `v`; and the bit order
is LSB-first: bit `i` of the value lands in the LSB of carrier byte `i`. -/
theorem C2_bit_codec_roundtrip
    (b v i j : Nat) (carrier carrier32 : List Nat)
    (hb : b < 256) (hc : 8 ≤ carrier.length)
    (hv : v < 4294967296) (hc32 : 32 ≤ carrier32.length)
    (hi : i < 8) (hj : j < 32) :
    decode_byte_from_lsb ((encode_byte_to_lsb b carrier).2) = b
    ∧ decode_size_from_lsb ((encode_size_to_lsb v carrier32).2) = v
    ∧ ((encode_byte_to_lsb b carrier).2).getD i 0 % 2 = b / 2 ^ i % 2
    ∧ ((encode_size_to_lsb v carrier32).2).getD j 0 % 2 = v / 2 ^ j % 2 := by
  refine ⟨?_, ?_, ?_, ?_⟩
  · have h := extractBits_embedBits 8 b carrier hc
    simp only [decode_byte_from_lsb, encode_byte_to_lsb, h]
    norm_num
    omega
  · have h := extractBits_embedBits 32 v carrier32 hc32
    simp only [decode_size_from_lsb, encode_size_to_lsb, h]
    norm_num
    omega
  · exact embedBits_getD_mod2 8 b carrier i hi (by omega)
  · exact embedBits_getD_mod2 32 v carrier32 j hj (by omega)

/-- C3 counterexample: for a cover of capacity 96 pixel bytes (width 4,
height 8) and a 1-byte secret, the claim's formula — usable bytes at least
secret size plus (signature length + two 32-bit fields) = 10 bytes of
overhead — accepts (12 >= 11), but `check_capacity` rejects, because the
code's overhead constant is 14, not 10. -/
theorem C3_counterexample :
    check_capacity cover96 [65] = false
    ∧ get_file_size [65] + claim_fixed_overhead
        ≤ get_image_size_for_bmp cover96 / 8 := by decide

/-- C3 amended: `check_capacity` succeeds iff
`(width * height * 3 mod 2^32) / 8 >= secretSize + 14`, where 14 is the
code's fixed overhead constant (signature 2 + two 32-bit length fields 8,
plus a 4-byte allowance); the boundary is exact at this constant. -/
theorem C3_capacity_amended (cover secret : List Nat)
    (h : secret.length + 14 < 4294967296) :
    check_capacity cover secret = true
      ↔ secret.length + 14 ≤ get_image_size_for_bmp cover / 8 := by
  have hsz : get_file_size secret = secret.length := Nat.mod_eq_of_lt (by omega)
  simp only [check_capacity, hsz, Nat.mod_eq_of_lt h]
  by_cases hx : get_image_size_for_bmp cover / 8 < secret.length + 14
  · rw [if_pos hx]
    constructor
    · intro hfalse
      exact absurd hfalse (by simp)
    · intro hle
      exact absurd hle (by omega)
  · rw [if_neg hx]
    constructor
    · intro _
      omega
    · intro _
      rfl

/-- Witness for C3 amended at a concrete cover and secret. -/
theorem C3_capacity_amended_witness :
    ([65] : List Nat).length + 14 < 4294967296
    ∧ (check_capacity cover96 [65] = true
        ↔ ([65] : List Nat).length + 14 ≤ get_image_size_for_bmp cover96 / 8) :=
  ⟨by decide, C3_capacity_amended cover96 [65] (by decide)⟩

/-- Witness for C1: the 2-byte secret "hi" with filename "s.txt" in the
width-8, height-6 cover round-trips. -/
theorem C1_encode_decode_roundtrip_witness :
    firstDotSuffix fnameTxt = some [46, 116, 120, 116]
    ∧ (do_decoding none (stegoBytes (do_encoding fnameTxt coverB [104, 105]))).status
        = Status.e_success
    ∧ (do_decoding none (stegoBytes (do_encoding fnameTxt coverB [104, 105]))).outBytes
        = [104, 105]
    ∧ (do_decoding none (stegoBytes (do_encoding fnameTxt coverB [104, 105]))).extn
        = [46, 116, 120, 116] := by
  have h := C1_encode_decode_roundtrip fnameTxt coverB [104, 105]
    [46, 116, 120, 116] none (by decide) (by decide) (by decide) (by decide)
    (by decide) (by decide) (by decide)
  exact ⟨by decide, h.2.1, h.2.2.1, h.2.2.2⟩

/-- Witness for C2 at a concrete byte, 32-bit value and carriers. -/
theorem C2_bit_codec_roundtrip_witness :
    (166 : Nat) < 256 ∧ 8 ≤ ([7, 8, 9, 10, 11, 12, 13, 14] : List Nat).length
    ∧ (3735928559 : Nat) < 4294967296
    ∧ 32 ≤ (List.replicate 32 (5 : Nat)).length
    ∧ (3 : Nat) < 8 ∧ (17 : Nat) < 32
    ∧ decode_byte_from_lsb ((encode_byte_to_lsb 166 [7, 8, 9, 10, 11, 12, 13, 14]).2)
        = 166
    ∧ decode_size_from_lsb ((encode_size_to_lsb 3735928559 (List.replicate 32 5)).2)
        = 3735928559
    ∧ ((encode_byte_to_lsb 166 [7, 8, 9, 10, 11, 12, 13, 14]).2).getD 3 0 % 2
        = 166 / 2 ^ 3 % 2
    ∧ ((encode_size_to_lsb 3735928559 (List.replicate 32 5)).2).getD 17 0 % 2
        = 3735928559 / 2 ^ 17 % 2 := by
  have h := C2_bit_codec_roundtrip 166 3735928559 3 17
    [7, 8, 9, 10, 11, 12, 13, 14] (List.replicate 32 5)
    (by decide) (by decide) (by decide) (by decide) (by decide) (by decide)
  exact ⟨by decide, by decide, by decide, by decide, by decide, by decide,
    h.1, h.2.1, h.2.2.1, h.2.2.2⟩

/-- C4 counterexample: the stego image for secret `[7]` is 174 bytes; its
166-byte truncation is missing the whole 8-carrier-byte payload field, yet
`do_decoding` returns `e_success` (and writes the stale byte 0 instead of the
payload): the payload step silently continues on a short read instead of
failing. -/
theorem C4_counterexample :
    (stegoBytes (do_encoding fnameTxt coverA [7])).length = 174
    ∧ truncatedStego.length = 166
    ∧ (do_decoding none truncatedStego).status = Status.e_success
    ∧ (do_decoding none truncatedStego).outBytes = [0] := by decide

/-- C4 amended: short reads are detected only in the
`decode_data_from_image`-based steps (signature and extension bytes), which
fail when the stream is short; the 32-byte extension-length read does not
check the read and succeeds or fails purely by the decoded value's sanity
range, and the payload loop writes one byte per requested payload byte no
matter how short the stream is. -/
theorem C4_short_read_detection (n ch : Nat) (s : List Nat)
    (h : s.length < 8 * n) :
    (decode_data_from_image n s).1 = none
    ∧ ((decode_file_extn_size s).1 = Status.e_success
        ↔ ¬ (decode_size_from_lsb (s.take 32) = 0
              ∨ 10 < decode_size_from_lsb (s.take 32)))
    ∧ ((decode_secret_file_data n ch s).1).length = n := by
  refine ⟨decode_data_short n s h, ?_, decode_loop_length n ch s⟩
  by_cases hc : decode_size_from_lsb (s.take 32) = 0
      ∨ 10 < decode_size_from_lsb (s.take 32)
  · simp [decode_file_extn_size, hc]
  · simp [decode_file_extn_size, hc]

/-- Witness for C4 amended on the empty stream with a 1-byte request. -/
theorem C4_short_read_detection_witness :
    ([] : List Nat).length < 8 * 1
    ∧ ((decode_data_from_image 1 ([] : List Nat)).1 = none
        ∧ ((decode_file_extn_size ([] : List Nat)).1 = Status.e_success
            ↔ ¬ (decode_size_from_lsb (([] : List Nat).take 32) = 0
                  ∨ 10 < decode_size_from_lsb (([] : List Nat).take 32)))
        ∧ ((decode_secret_file_data 1 0 ([] : List Nat)).1).length = 1) :=
  ⟨by decide, C4_short_read_detection 1 0 [] (by decide)⟩

/-- C5: whenever the first two decoded signature bytes differ from the
expected `MAGIC_STRING`, `do_decoding` fails at the signature stage, reads
nothing past the 16 signature carrier bytes (54-byte header + 16 = 70), and
neither creates nor writes the output file. -/
theorem C5_signature_mismatch (oname : Option (List Nat)) (file bs : List Nat)
    (hdec : (decode_data_from_image MAGIC_STRING.length (file.drop 54)).1 = some bs)
    (hne : bs ≠ MAGIC_STRING) :
    do_decoding oname file
      = DecodeResult.mk Status.e_failure (some DecodeStage.stageSig) [] none []
          (file.drop 70) := by
  rcases h : decode_data_from_image MAGIC_STRING.length (file.drop 54) with ⟨o, s1⟩
  rw [h] at hdec
  simp only at hdec
  subst hdec
  have hs1 : s1 = file.drop 70 := by
    have hr := decode_data_some_rest MAGIC_STRING.length (file.drop 54) bs s1 h
    rw [hr, List.drop_drop]
    norm_num [MAGIC_STRING]
  have hm : decode_magic_string (file.drop 54) = (Status.e_failure, s1) := by
    simp [decode_magic_string, h, hne]
  simp [do_decoding, hm, hs1]

/-- Witness for C5: a 70-byte all-zero file decodes signature bytes `[0, 0]`,
which mismatch, and the pipeline fails with no output file and nothing read
past byte 70. -/
theorem C5_signature_mismatch_witness :
    (decode_data_from_image MAGIC_STRING.length
        ((List.replicate 70 0).drop 54)).1 = some [0, 0]
    ∧ ([0, 0] : List Nat) ≠ MAGIC_STRING
    ∧ do_decoding none (List.replicate 70 0)
        = DecodeResult.mk Status.e_failure (some DecodeStage.stageSig) [] none []
            ((List.replicate 70 0).drop 70) :=
  ⟨by decide, by decide,
    C5_signature_mismatch none (List.replicate 70 0) [0, 0] (by decide) (by decide)⟩

/-- C6: after a successful encode the stego image equals the cover image
outside the encoded region: the first 54 header bytes are byte-identical,
and every byte after the last carrier byte consumed by the container
(8 * (2 + extLen) + 64 + 8 * payloadLen = 80 + 8 * extLen + 8 * payloadLen
pixel bytes) is byte-identical. -/
theorem C6_frame_outside_container
    (fname cover secret extn : List Nat)
    (hdot : firstDotSuffix fname = some extn)
    (hfit : extn.length ≤ 4)
    (hne : secret ≠ [])
    (hcap : secret.length + 14 ≤ get_image_size_for_bmp cover / 8)
    (hpix : get_image_size_for_bmp cover ≤ (cover.drop 54).length) :
    do_encoding fname cover secret
        = EncResult.ok (stegoBytes (do_encoding fname cover secret))
    ∧ (stegoBytes (do_encoding fname cover secret)).take 54 = cover.take 54
    ∧ (stegoBytes (do_encoding fname cover secret)).drop
          (54 + (80 + 8 * extn.length + 8 * secret.length))
        = cover.drop (54 + (80 + 8 * extn.length + 8 * secret.length)) := by
  have hcaplt : get_image_size_for_bmp cover < 4294967296 := by
    unfold get_image_size_for_bmp
    exact Nat.mod_lt _ (by norm_num)
  have hS14 : secret.length + 14 < 4294967296 := by omega
  have hmul : 8 * (secret.length + 14) ≤ get_image_size_for_bmp cover := by
    have := (Nat.le_div_iff_mul_le (by norm_num : 0 < 8)).mp hcap
    omega
  have hplen : 80 + 8 * extn.length + 8 * secret.length
      ≤ (cover.drop 54).length := by omega
  have h54 : 54 ≤ cover.length := by
    have := List.length_drop 54 cover
    omega
  have hlen54 : (cover.take 54).length = 54 := by
    rw [List.length_take]
    omega
  have henc := do_encoding_ok fname cover secret extn hdot hne hS14 hcap
  refine ⟨by rw [henc]; rfl, ?_, ?_⟩
  · rw [henc]
    show (cover.take 54 ++ containerStream (cover.drop 54) extn secret).take 54
        = cover.take 54
    exact List.take_left' hlen54
  · rw [henc]
    show (cover.take 54 ++ containerStream (cover.drop 54) extn secret).drop
        (54 + (80 + 8 * extn.length + 8 * secret.length))
        = cover.drop (54 + (80 + 8 * extn.length + 8 * secret.length))
    rw [← List.drop_drop (80 + 8 * extn.length + 8 * secret.length) 54,
      List.drop_left' hlen54,
      containerStream_drop (cover.drop 54) extn secret hplen,
      List.drop_drop]

/-- Witness for C6 on the concrete cover `coverB`, secret "hi" and filename
"s.txt". -/
theorem C6_frame_outside_container_witness :
    firstDotSuffix fnameTxt = some [46, 116, 120, 116]
    ∧ (stegoBytes (do_encoding fnameTxt coverB [104, 105])).take 54
        = coverB.take 54
    ∧ (stegoBytes (do_encoding fnameTxt coverB [104, 105])).drop
          (54 + (80 + 8 * 4 + 8 * 2))
        = coverB.drop (54 + (80 + 8 * 4 + 8 * 2)) := by
  have h := C6_frame_outside_container fnameTxt coverB [104, 105]
    [46, 116, 120, 116] (by decide) (by decide) (by decide) (by decide) (by decide)
  exact ⟨by decide, h.2.1, h.2.2⟩

/-- C7: the packing operations modify only bit 0 of the carrier bytes they
touch: the carrier keeps its length, bits 1-7 of every touched byte are
unchanged, bytes past the packed window are untouched, and both operations
return `e_success` unconditionally. -/
theorem C7_pack_touches_only_lsb
    (data v i k j m : Nat) (buf buf32 : List Nat)
    (_hi : i < 8) (_hj : j < 32) :
    (encode_byte_to_lsb data buf).1 = Status.e_success
    ∧ ((encode_byte_to_lsb data buf).2).length = buf.length
    ∧ ((encode_byte_to_lsb data buf).2).getD i 0 / 2 = buf.getD i 0 / 2
    ∧ ((encode_byte_to_lsb data buf).2).getD (8 + k) 0 = buf.getD (8 + k) 0
    ∧ (encode_size_to_lsb v buf32).1 = Status.e_success
    ∧ ((encode_size_to_lsb v buf32).2).length = buf32.length
    ∧ ((encode_size_to_lsb v buf32).2).getD j 0 / 2 = buf32.getD j 0 / 2
    ∧ ((encode_size_to_lsb v buf32).2).getD (32 + m) 0 = buf32.getD (32 + m) 0 := by
  refine ⟨rfl, ?_, ?_, ?_, rfl, ?_, ?_, ?_⟩
  · exact embedBits_length 8 data buf
  · exact embedBits_getD_div2 8 data buf i
  · exact embedBits_getD_ge 8 data buf (8 + k) (by omega)
  · exact embedBits_length 32 v buf32
  · exact embedBits_getD_div2 32 v buf32 j
  · exact embedBits_getD_ge 32 v buf32 (32 + m) (by omega)

/-- Witness for C7 at a concrete data byte, value and carriers. -/
theorem C7_pack_touches_only_lsb_witness :
    (2 : Nat) < 8 ∧ (30 : Nat) < 32
    ∧ ((encode_byte_to_lsb 201 [250, 251, 252, 253, 254, 255, 1, 2, 99]).2).length
        = ([250, 251, 252, 253, 254, 255, 1, 2, 99] : List Nat).length
    ∧ ((encode_byte_to_lsb 201 [250, 251, 252, 253, 254, 255, 1, 2, 99]).2).getD 2 0 / 2
        = ([250, 251, 252, 253, 254, 255, 1, 2, 99] : List Nat).getD 2 0 / 2
    ∧ ((encode_byte_to_lsb 201 [250, 251, 252, 253, 254, 255, 1, 2, 99]).2).getD (8 + 0) 0
        = ([250, 251, 252, 253, 254, 255, 1, 2, 99] : List Nat).getD (8 + 0) 0
    ∧ ((encode_size_to_lsb 123456789 (List.replicate 33 7)).2).getD 30 0 / 2
        = (List.replicate 33 (7 : Nat)).getD 30 0 / 2
    ∧ ((encode_size_to_lsb 123456789 (List.replicate 33 7)).2).getD (32 + 0) 0
        = (List.replicate 33 (7 : Nat)).getD (32 + 0) 0 := by
  have h := C7_pack_touches_only_lsb 201 123456789 2 0 30 0
    [250, 251, 252, 253, 254, 255, 1, 2, 99] (List.replicate 33 7)
    (by decide) (by decide)
  exact ⟨by decide, by decide, h.2.1, h.2.2.1, h.2.2.2.1,
    h.2.2.2.2.2.2.1, h.2.2.2.2.2.2.2⟩

/-- C8 counterexample: for the secret filename "a.b.c", the extension
embedded (and decoded back) by the pipeline is ".b.c" — the suffix from the
FIRST dot — not the last-dot suffix ".c" that the claim states. -/
theorem C8_counterexample :
    (do_decoding none (stegoBytes (do_encoding fnameABC coverA [7]))).extn
        = [46, 98, 46, 99]
    ∧ claim_last_dot_suffix fnameABC = [46, 99]
    ∧ ([46, 98, 46, 99] : List Nat) ≠ [46, 99] := by decide

/-- C8 amended: the extension embedded by the encode pipeline is the suffix
of the secret filename from its FIRST dot onward (the result of
`strstr(secret_fname, ".")`), leading dot included. -/
theorem C8_extension_is_first_dot_suffix (pre post : List Nat) (h : 46 ∉ pre) :
    firstDotSuffix (pre ++ 46 :: post) = some (46 :: post) := by
  have hd := dropWhile_append_dot pre post h
  simp only [ne_eq, decide_not] at hd
  simp [firstDotSuffix, hd]

/-- Witness for C8 amended: "a.b.c" split at its first dot. -/
theorem C8_extension_is_first_dot_suffix_witness :
    (46 : Nat) ∉ ([97] : List Nat)
    ∧ firstDotSuffix ([97] ++ 46 :: [98, 46, 99]) = some (46 :: [98, 46, 99]) :=
  ⟨by decide, C8_extension_is_first_dot_suffix [97] [98, 46, 99] (by decide)⟩

/-- C9 counterexample: for the user-supplied base name ".txt" and decoded
extension ".txt", the pipeline's name resolution produces "txt.txt" (strtok
skips the leading period), while the claim's rule — the part of the base
before its first period — produces ".txt". -/
theorem C9_counterexample :
    build_final_name (some [46, 116, 120, 116]) [46, 116, 120, 116]
        = [116, 120, 116, 46, 116, 120, 116]
    ∧ claim_final_name (some [46, 116, 120, 116]) [46, 116, 120, 116]
        = [46, 116, 120, 116]
    ∧ build_final_name (some [46, 116, 120, 116]) [46, 116, 120, 116]
        ≠ claim_final_name (some [46, 116, 120, 116]) [46, 116, 120, 116] := by
  decide

/-- C9 amended: the pipeline's output filename is the first maximal run of
non-period characters of the base name truncated to 255 bytes (leading
periods skipped), with the default stem when the base is absent, empty, or
all periods, followed by the decoded extension up to its first NUL byte. -/
theorem C9_final_name_amended (oname : Option (List Nat)) (extn : List Nat) :
    build_final_name oname extn = amended_final_name oname extn := by
  cases oname with
  | none => rfl
  | some u =>
    by_cases hu : u = []
    · simp [build_final_name, amended_final_name, hu]
    · simp [build_final_name, amended_final_name, hu, first_token_eq_strtok]

/-- C10: the encode pipeline rejects an empty secret file before copying the
header or embedding anything: it fails with nothing written to the stego
file. -/
theorem C10_empty_secret_rejected (fname cover : List Nat) :
    do_encoding fname cover [] = EncResult.fail [] := by
  simp [do_encoding, get_file_size]
